import Mathlib

set_option maxHeartbeats 1600000
set_option linter.unusedVariables false

/-!  Verification development for the UAV design system's coordination engine.

The engine (src/state.py, src/agents/base_agent.py, src/agents/coordinator.py,
src/agents/{mission_planner,aerodynamics,propulsion,structures,manufacturing}.py,
src/workflow.py, src/config.py) is embedded shallowly: Python dicts become
association lists with replace-or-append insertion, the LLM decision step is an
oracle parameter (an `Except` value: an exception, a missing structured
response, or a produced output), and `asyncio.gather` over the five worker
coroutines is modelled as a sequential fold (each worker only writes its own
output slot, its own row of `last_update_iteration`, and mailboxes, so the
properties proved here are interleaving-independent).  Wall-clock message
timestamps (`asyncio.get_event_loop().time()`) are not modelled: no claim
depends on them.  -/

namespace UAVDesign

/-- Association list carrying Python-dict semantics: at most one binding per
key (maintained by `insertList`), insertion order preserved. -/
def lookupList {κ α : Type} [DecidableEq κ] : List (κ × α) → κ → Option α
  | [], _ => none
  | (k', v) :: rest, k => if k' = k then some v else lookupList rest k

/-- Python `d[k] = v`: replace the binding in place if the key is present,
otherwise append it (dicts preserve insertion order). -/
def insertList {κ α : Type} [DecidableEq κ] : List (κ × α) → κ → α → List (κ × α)
  | [], k, v => [(k, v)]
  | (k', v') :: rest, k, v =>
      if k' = k then (k, v) :: rest else (k', v') :: insertList rest k v

/-- A Python dict. -/
structure Dict (κ α : Type) where
  entries : List (κ × α)
deriving DecidableEq, Repr

def Dict.lookup {κ α : Type} [DecidableEq κ] (d : Dict κ α) (k : κ) : Option α :=
  lookupList d.entries k

def Dict.insert {κ α : Type} [DecidableEq κ] (d : Dict κ α) (k : κ) (v : α) : Dict κ α :=
  ⟨insertList d.entries k v⟩

/-- Python `k in d`. -/
def Dict.contains {κ α : Type} [DecidableEq κ] (d : Dict κ α) (k : κ) : Bool :=
  (d.lookup k).isSome

/-- Python `d.keys()` (in insertion order). -/
def Dict.keys {κ α : Type} (d : Dict κ α) : List κ :=
  d.entries.map Prod.fst

/-- Python `not d` / `len(d) == 0`. -/
def Dict.isEmpty {κ α : Type} (d : Dict κ α) : Bool :=
  d.entries.isEmpty

def Dict.empty {κ α : Type} : Dict κ α := ⟨[]⟩

/-- Python `max(keys)` over `Nat` keys (callers guard against emptiness;
on the empty list this yields 0). -/
def maxNatList (l : List Nat) : Nat := l.foldl Nat.max 0

/-! ## Data model (src/pydantic_models.py, src/state.py) -/

/-- Embeds `AgentMessage` (src/pydantic_models.py): target agent and content. -/
structure AgentMessage where
  to_agent : String
  content : String
deriving DecidableEq, Repr

/-- Embeds `StoredMessage` (src/state.py).  The wall-clock `timestamp` float is not
modelled (no claim depends on it; real time is outside the embedding). -/
structure StoredMessage where
  from_agent : String
  to_agent : String
  content : String
  iteration : Nat
deriving DecidableEq, Repr

/-- The engineering fields of the five per-role output schemas
(src/pydantic_models.py), i.e. every field except `messages` and `iteration`.
Numeric (float) fields are modelled as rationals: the engine never computes
with them, it only stores and compares them. -/
inductive CoreFields where
  | missionPlanner (mtow range_km payload_kg endurance_hours altitude_m : Rat)
  | aerodynamics (wing_area_m2 aspect_ratio : Rat) (airfoil_type : String)
      ( lift_to_drag_ratio stall_speed_ms : Rat)
  | propulsion (engine_power_kw thrust_n : Rat) (engine_type : String)
      (fuel_consumption_rate engine_weight_kg : Rat)
  | structures (fuselage_length_m : Rat) (wing_spar_material fuselage_material : String)
      (safety_factor structural_weight_kg : Rat)
  | manufacturing (total_cost_usd production_time_hours material_cost_usd
      labor_cost_usd feasibility_score : Rat)
deriving DecidableEq, Repr

/-- A worker output: role-specific engineering fields plus the two metadata
fields `messages` and `iteration` shared by every schema. -/
structure WorkerOutput where
  core : CoreFields
  messages : List AgentMessage
  iteration : Nat
deriving DecidableEq, Repr

/-- Embeds `AgentTask` (src/pydantic_models.py). -/
structure AgentTask where
  agent_name : String
  task_description : String
deriving DecidableEq, Repr

/-- Embeds `CoordinatorOutput` (src/pydantic_models.py). -/
structure CoordinatorOutput where
  project_complete : Bool
  completion_reason : String
  agent_tasks : List AgentTask
  messages : List AgentMessage
  iteration : Nat
deriving DecidableEq, Repr

/-- The five worker roles (src/workflow.py instantiates exactly these). -/
inductive WorkerName where
  | mission_planner
  | aerodynamics
  | propulsion
  | structures
  | manufacturing
deriving DecidableEq, Repr

def WorkerName.toString : WorkerName → String
  | .mission_planner => "mission_planner"
  | .aerodynamics => "aerodynamics"
  | .propulsion => "propulsion"
  | .structures => "structures"
  | .manufacturing => "manufacturing"

/-- Embeds `GlobalState` (src/state.py).  `last_update_iteration` holds integers
because its sentinel initial value is `-1`. -/
structure GlobalState where
  mission_planner_outputs : Dict Nat WorkerOutput
  aerodynamics_outputs : Dict Nat WorkerOutput
  propulsion_outputs : Dict Nat WorkerOutput
  structures_outputs : Dict Nat WorkerOutput
  manufacturing_outputs : Dict Nat WorkerOutput
  coordinator_outputs : Dict Nat CoordinatorOutput
  mailboxes : Dict String (List StoredMessage)
  current_iteration : Nat
  max_iterations : Nat
  stability_threshold : Nat
  last_update_iteration : Dict String Int
  project_complete : Bool
  user_requirements : String
deriving DecidableEq, Repr

/-- Embeds the dynamic attribute access `getattr(state, f"\x7bname\x7d_outputs")`
(src/agents/base_agent.py). -/
def GlobalState.outputsOf (s : GlobalState) : WorkerName → Dict Nat WorkerOutput
  | .mission_planner => s.mission_planner_outputs
  | .aerodynamics => s.aerodynamics_outputs
  | .propulsion => s.propulsion_outputs
  | .structures => s.structures_outputs
  | .manufacturing => s.manufacturing_outputs

/-- Writing back through the same dynamic attribute. -/
def GlobalState.setOutputsOf (s : GlobalState) : WorkerName → Dict Nat WorkerOutput → GlobalState
  | .mission_planner, d => { s with mission_planner_outputs := d }
  | .aerodynamics, d => { s with aerodynamics_outputs := d }
  | .propulsion, d => { s with propulsion_outputs := d }
  | .structures, d => { s with structures_outputs := d }
  | .manufacturing, d => { s with manufacturing_outputs := d }

/-! ## Configuration (src/config.py) -/

def MAX_ITERATIONS : Nat := 20

def STABILITY_THRESHOLD : Nat := 3

/-- Embeds `COMMUNICATION_RULES` (src/config.py lines 18-24). -/
def COMMUNICATION_RULES : Dict String (List String) :=
  ⟨[("mission_planner", ["aerodynamics", "propulsion", "structures"]),
    ("aerodynamics", ["mission_planner", "propulsion", "structures"]),
    ("propulsion", ["mission_planner", "aerodynamics"]),
    ("structures", ["mission_planner", "aerodynamics", "manufacturing"]),
    ("manufacturing", ["structures"])]⟩

/-- Embeds `self.communication_allowed = COMMUNICATION_RULES.get(self.name, [])`. -/
def communication_allowed (a : WorkerName) : List String :=
  (COMMUNICATION_RULES.lookup (WorkerName.toString a)).getD []

/-- Embeds `BaseAgent.can_communicate_with`. -/
def can_communicate_with (a : WorkerName) (other : String) : Bool :=
  (communication_allowed a).contains other

/-! ## BaseAgent context helpers (src/agents/base_agent.py) -/

/-- First task in `co.agent_tasks` whose `agent_name` matches (the Python loop
returns on the first match). -/
def findTaskIn (co : CoordinatorOutput) (name : String) : Option String :=
  (co.agent_tasks.find? (fun t => t.agent_name = name)).map (fun t => t.task_description)

/-- Insert into a descending-sorted list, keeping descending order. -/
def insertDescending (k : Nat) : List Nat → List Nat
  | [] => [k]
  | x :: xs => if x ≤ k then k :: x :: xs else x :: insertDescending k xs

/-- Embeds `sorted(keys, reverse=True)`. -/
def sortDescending (l : List Nat) : List Nat :=
  l.foldr insertDescending []

/-- Embeds `BaseAgent.get_task_for_current_iteration`: try the current iteration's
coordinator output first; failing that, search all recorded coordinator
outputs by descending iteration. -/
def get_task_for_current_iteration (a : WorkerName) (s : GlobalState) : Option String :=
  match (s.coordinator_outputs.lookup s.current_iteration).bind
      (fun co => findTaskIn co (WorkerName.toString a)) with
  | some t => some t
  | none =>
      (sortDescending s.coordinator_outputs.keys).findSome?
        (fun i => (s.coordinator_outputs.lookup i).bind
          (fun co => findTaskIn co (WorkerName.toString a)))

/-- Embeds `BaseAgent.get_own_previous_output`: the agent's output at its highest
recorded iteration, if any. -/
def get_own_previous_output (a : WorkerName) (s : GlobalState) : Option WorkerOutput :=
  let outputs_dict := s.outputsOf a
  if outputs_dict.isEmpty then none
  else outputs_dict.lookup (maxNatList outputs_dict.keys)

/-- The dictionary that the body of
`BaseAgent.get_communicable_agents_outputs` builds: the latest output of each
agent in the allowed-communication set that has any recorded output. -/
def communicable_agents_outputs_dict (a : WorkerName) (s : GlobalState) :
    Dict String WorkerOutput :=
  ⟨(communication_allowed a).filterMap (fun name =>
      match name with
      | "mission_planner" => latestOf s.mission_planner_outputs |>.map (name, ·)
      | "aerodynamics" => latestOf s.aerodynamics_outputs |>.map (name, ·)
      | "propulsion" => latestOf s.propulsion_outputs |>.map (name, ·)
      | "structures" => latestOf s.structures_outputs |>.map (name, ·)
      | "manufacturing" => latestOf s.manufacturing_outputs |>.map (name, ·)
      | _ => none)⟩
where
  latestOf (d : Dict Nat WorkerOutput) : Option WorkerOutput :=
    if d.isEmpty then none else d.lookup (maxNatList d.keys)

/-- Embeds `BaseAgent.get_communicable_agents_outputs` (src/agents/base_agent.py
lines 71-79): the body populates `communicable_outputs` but the method has no
`return` statement, so Python returns `None` — the computed dictionary is
discarded. -/
def get_communicable_agents_outputs (a : WorkerName) (s : GlobalState) :
    Option (Dict String WorkerOutput) :=
  let communicable_outputs := communicable_agents_outputs_dict a s
  none

/-! ## Dependency gates (per-role `check_dependencies_ready` overrides) -/

/-- Per-role `check_dependencies_ready`: mission_planner none;
aerodynamics and propulsion need `len(state.mission_planner_outputs) > 0`;
structures needs mission_planner and aerodynamics non-empty; manufacturing
needs structures non-empty. -/
def check_dependencies_ready : WorkerName → GlobalState → Bool
  | .mission_planner, _ => true
  | .aerodynamics, s => !s.mission_planner_outputs.isEmpty
  | .propulsion, s => !s.mission_planner_outputs.isEmpty
  | .structures, s => !s.mission_planner_outputs.isEmpty && !s.aerodynamics_outputs.isEmpty
  | .manufacturing, s => !s.structures_outputs.isEmpty

/-! ## Update classification (BaseAgent.should_update_last_iteration) -/

/-- Embeds `max([k for k in outputs_dict.keys() if k < current_iter])`, when that
filtered list is non-empty. -/
def latestPriorKey (d : Dict Nat WorkerOutput) (current_iter : Nat) : Option Nat :=
  let previous_keys := d.keys.filter (fun k => k < current_iter)
  if previous_keys.isEmpty then none else some (maxNatList previous_keys)

/-- Embeds `BaseAgent.should_update_last_iteration`: first output ever, or no key
strictly below the current iteration, is always an update; otherwise compare
the new output to the latest prior one on all fields except `iteration` and
`messages` (the two fields popped before the dict comparison), i.e. on
`core`.  The `none` fallback is unreachable: `latestPriorKey` returns a key
of the dictionary. -/
def should_update_last_iteration (a : WorkerName) (s : GlobalState)
    (new_output : WorkerOutput) : Bool :=
  let outputs_dict := s.outputsOf a
  if outputs_dict.isEmpty then true
  else
    match latestPriorKey outputs_dict s.current_iteration with
    | none => true
    | some latest_previous_key =>
        match outputs_dict.lookup latest_previous_key with
        | some previous_output => decide (new_output.core ≠ previous_output.core)
        | none => false

/-! ## Message dispatch (BaseAgent.send_messages) -/

/-- Embeds `state.mailboxes[key].add_message(m)`: append to the recipient's mailbox.
All call sites are guarded so that `key` is a registered mailbox; an absent
key (Python `KeyError`) is modelled as a no-op and is unreachable from the
initial state. -/
def addToMailbox (s : GlobalState) (key : String) (m : StoredMessage) : GlobalState :=
  match s.mailboxes.lookup key with
  | some box => { s with mailboxes := s.mailboxes.insert key (box ++ [m]) }
  | none => s

/-- One pass of the dispatch loop in `BaseAgent.send_messages`: deliver each
message whose target is in the sender's allowed-communication set, stamped
with the sender's current iteration; drop (with a warning print) the rest. -/
def dispatchOnce (a : WorkerName) (s : GlobalState) (msgs : List AgentMessage) : GlobalState :=
  msgs.foldl (fun st msg =>
    if can_communicate_with a msg.to_agent then
      addToMailbox st msg.to_agent
        { from_agent := WorkerName.toString a
          to_agent := msg.to_agent
          content := msg.content
          iteration := st.current_iteration }
    else st) s

/-- Embeds `BaseAgent.send_messages` (src/agents/base_agent.py lines 176-202): the
method body contains the dispatch loop twice in sequence (lines 178-189 and
191-202, separated only by a stray duplicate docstring), so every allowed
message is delivered twice. -/
def send_messages (a : WorkerName) (s : GlobalState) (msgs : List AgentMessage) : GlobalState :=
  dispatchOnce a (dispatchOnce a s msgs) msgs

/-! ## Worker lifecycle (BaseAgent.process) -/

/-- Outcome of the LLM decision step `agent.ainvoke`: an exception
(`Except.error`), a run with no `structured_response` (`Except.ok none`), or
a structured output (`Except.ok (some out)`). -/
abbrev DecisionResult := Except Unit (Option WorkerOutput)

/-- The successful tail of `BaseAgent.process` (lines 283-293): stamp the
structured output with the current iteration, commit it into this agent's
output dictionary, set `last_update_iteration[name]` iff the output is
classified as an update (the classification runs on the state that already
holds the commit, exactly as in the source), then dispatch the output's
messages if there are any. -/
def commit_and_dispatch (a : WorkerName) (structured_output : WorkerOutput)
    (s : GlobalState) : GlobalState :=
  let current_iter := s.current_iteration
  let output := { structured_output with iteration := current_iter }
  let s1 := s.setOutputsOf a ((s.outputsOf a).insert current_iter output)
  let lui := s1.last_update_iteration.insert (WorkerName.toString a) (current_iter : Int)
  let s2 :=
    if should_update_last_iteration a s1 output then
      { s1 with last_update_iteration := lui }
    else s1
  if output.messages.isEmpty then s2 else send_messages a s2 output.messages

/-- Embeds `BaseAgent.process`: no-op when there is no (non-empty) task, when the
dependency gate fails, or when an output already exists for the current
iteration; otherwise run the decision step, and on success commit and
dispatch (`commit_and_dispatch`).  Any exception in the decision step leaves
the state untouched (`try`/`except` around the whole decision-and-commit
block; every mutation happens after a successful `ainvoke`). -/
def process (a : WorkerName) (result : DecisionResult) (s : GlobalState) : GlobalState :=
  match get_task_for_current_iteration a s with
  | none => s
  | some task =>
    if task = "" then s
    else if !check_dependencies_ready a s then s
    else if (s.outputsOf a).contains s.current_iteration then s
    else
      match result with
      | .error _ => s
      | .ok none => s
      | .ok (some structured_output) => commit_and_dispatch a structured_output s

/-! ## Coordinator (src/agents/coordinator.py) -/

/-- Embeds `CoordinatorAgent.check_stability`: false while
`current_iteration < stability_threshold`; otherwise false as soon as any
agent in `last_update_iteration` updated within the last
`stability_threshold` iterations. -/
def check_stability (s : GlobalState) : Bool :=
  if s.current_iteration < s.stability_threshold then false
  else
    s.last_update_iteration.entries.all (fun p =>
      !decide ((s.current_iteration : Int) - p.2 < (s.stability_threshold : Int)))

/-- The canned continuation output emitted when the system is not stable
(no LLM evaluation). -/
def notStableOutput (current_iter : Nat) : CoordinatorOutput :=
  { project_complete := false
    completion_reason := "System not stable - agents still updating. Continuing to iteration " ++
      toString (current_iter + 1) ++ "."
    agent_tasks := []
    messages := []
    iteration := current_iter }

/-- The unconditional tail of `CoordinatorAgent.process` (lines 67-89): stamp
the chosen output, record it under the current iteration, copy its
`project_complete` flag into the state, deliver its messages to registered
mailboxes (warn-and-drop for unknown agent names), and increment
`current_iteration` iff the project is not complete. -/
def coordinator_finish (current_iter : Nat) (output0 : CoordinatorOutput)
    (s : GlobalState) : GlobalState :=
  let output := { output0 with iteration := current_iter }
  let s1 := { s with
      coordinator_outputs := s.coordinator_outputs.insert current_iter output
      project_complete := output.project_complete }
  let s2 := output.messages.foldl (fun st msg =>
      if st.mailboxes.contains msg.to_agent then
        addToMailbox st msg.to_agent
          { from_agent := "coordinator"
            to_agent := msg.to_agent
            content := msg.content
            iteration := current_iter }
      else st) s1
  if !output.project_complete then
    { s2 with current_iteration := s2.current_iteration + 1 }
  else s2

/-- Embeds `CoordinatorAgent.process`.  The two LLM calls (initial task creation at
iteration 0, completion evaluation when stable) are modelled by the single
oracle parameter `llmOut`; in the not-stable branch the LLM is not consulted
and the canned continuation output is used.  When the evaluation decides to
continue despite stability, stability is reset by marking
`last_update_iteration["coordinator"] = current_iteration` (the snooze). -/
def coordinator_process (llmOut : CoordinatorOutput) (s : GlobalState) : GlobalState :=
  let current_iter := s.current_iteration
  if current_iter = 0 then coordinator_finish current_iter llmOut s
  else if !check_stability s then
    coordinator_finish current_iter (notStableOutput current_iter) s
  else if !llmOut.project_complete then
    coordinator_finish current_iter llmOut
      { s with last_update_iteration :=
          s.last_update_iteration.insert "coordinator" (current_iter : Int) }
  else coordinator_finish current_iter llmOut s

/-! ## Scheduler (src/workflow.py) -/

/-- The five workers, in the order `aggregator_node` creates them. -/
def WORKERS : List WorkerName :=
  [.mission_planner, .aerodynamics, .propulsion, .structures, .manufacturing]

/-- Embeds `aggregator_node` (src/workflow.py): run all five workers.  The
concurrent `asyncio.gather` is modelled as a sequential fold; each worker's
per-round decision result is supplied by the oracle `results`. -/
def aggregator_node (results : WorkerName → DecisionResult) (s : GlobalState) : GlobalState :=
  WORKERS.foldl (fun st a => process a (results a) st) s

/-! ## Dictionary lemmas -/

theorem lookupList_insertList {κ α : Type} [DecidableEq κ]
    (l : List (κ × α)) (k q : κ) (v : α) :
    lookupList (insertList l k v) q = if q = k then some v else lookupList l q := by
  induction l with
  | nil =>
      by_cases h : q = k
      · subst h; simp [insertList, lookupList]
      · have h' : ¬ k = q := fun hk => h hk.symm
        simp [insertList, lookupList, h, h']
  | cons hd tl ih =>
      obtain ⟨k', v'⟩ := hd
      by_cases h1 : k' = k
      · subst h1
        by_cases h2 : q = k'
        · subst h2; simp [insertList, lookupList]
        · have h2' : ¬ k' = q := fun hk => h2 hk.symm
          simp [insertList, lookupList, h2, h2']
      · by_cases h2 : k' = q
        · have hqk : ¬ q = k := by rw [← h2]; exact h1
          simp [insertList, lookupList, h1, h2, hqk]
        · simp [insertList, lookupList, h1, h2, ih]

theorem Dict.lookup_insert {κ α : Type} [DecidableEq κ] (d : Dict κ α) (k q : κ) (v : α) :
    (d.insert k v).lookup q = if q = k then some v else d.lookup q :=
  lookupList_insertList d.entries k q v

theorem lookupList_mem {κ α : Type} [DecidableEq κ]
    (l : List (κ × α)) (k : κ) (v : α) (h : lookupList l k = some v) : (k, v) ∈ l := by
  induction l with
  | nil => simp [lookupList] at h
  | cons hd tl ih =>
      obtain ⟨k', v'⟩ := hd
      by_cases h1 : k' = k
      · subst h1
        simp [lookupList] at h
        subst h
        exact List.mem_cons_self _ _
      · simp [lookupList, h1] at h
        exact List.mem_cons_of_mem _ (ih h)

theorem Dict.lookup_mem {κ α : Type} [DecidableEq κ] (d : Dict κ α) (k : κ) (v : α)
    (h : d.lookup k = some v) : (k, v) ∈ d.entries :=
  lookupList_mem d.entries k v h

theorem keys_insertList_of_not_mem {κ α : Type} [DecidableEq κ]
    (l : List (κ × α)) (k : κ) (v : α) (h : lookupList l k = none) :
    (insertList l k v).map Prod.fst = l.map Prod.fst ++ [k] := by
  induction l with
  | nil => simp [insertList]
  | cons hd tl ih =>
      obtain ⟨k', v'⟩ := hd
      by_cases h1 : k' = k
      · simp [lookupList, h1] at h
      · simp [lookupList, h1] at h
        simp [insertList, h1, ih h]

theorem insertList_ne_nil {κ α : Type} [DecidableEq κ] (l : List (κ × α)) (k : κ) (v : α) :
    insertList l k v ≠ [] := by
  cases l with
  | nil => simp [insertList]
  | cons hd tl =>
      obtain ⟨k', v'⟩ := hd
      by_cases h : k' = k <;> simp [insertList, h]

theorem Dict.insert_isEmpty {κ α : Type} [DecidableEq κ] (d : Dict κ α) (k : κ) (v : α) :
    (d.insert k v).isEmpty = false := by
  have := insertList_ne_nil d.entries k v
  simp [Dict.insert, Dict.isEmpty, List.isEmpty_iff, this]

theorem foldl_max_lt (l : List Nat) (c : Nat) :
    ∀ init, init < c → (∀ x ∈ l, x < c) → l.foldl Nat.max init < c := by
  induction l with
  | nil => intro init hi _; simpa using hi
  | cons hd tl ih =>
      intro init hi h
      have hhd : hd < c := h hd (List.mem_cons_self _ _)
      exact ih (Nat.max init hd)
        (Nat.max_lt.mpr ⟨hi, hhd⟩) (fun x hx => h x (List.mem_cons_of_mem _ hx))

theorem latestPriorKey_lt (d : Dict Nat WorkerOutput) (cur k : Nat)
    (h : latestPriorKey d cur = some k) : k < cur := by
  unfold latestPriorKey at h
  set pk := d.keys.filter (fun k => k < cur) with hpk
  by_cases hemp : pk.isEmpty
  · simp [hemp] at h
  · simp [hemp] at h
    have hall : ∀ x ∈ pk, x < cur := by
      intro x hx
      have := List.of_mem_filter hx
      simpa using this
    have hzero : 0 < cur := by
      cases hp : pk with
      | nil => rw [hp] at hemp; simp at hemp
      | cons y ys =>
          have : y < cur := hall y (by rw [hp]; exact List.mem_cons_self _ _)
          omega
    have := foldl_max_lt pk cur 0 hzero hall
    rw [← h]
    simpa [maxNatList] using this

theorem latestPriorKey_insert_current (d : Dict Nat WorkerOutput) (cur : Nat)
    (v : WorkerOutput) (h : d.contains cur = false) :
    latestPriorKey (d.insert cur v) cur = latestPriorKey d cur := by
  have hnone : d.lookup cur = none := by
    unfold Dict.contains at h
    cases hl : d.lookup cur with
    | none => rfl
    | some w => rw [hl] at h; simp at h
  have hkeys : (d.insert cur v).keys = d.keys ++ [cur] :=
    keys_insertList_of_not_mem d.entries cur v hnone
  unfold latestPriorKey
  rw [hkeys, List.filter_append]
  simp

/-! ## State-preservation machinery -/

/-- States `t` and `s` differ at most in the mailboxes. -/
def MailOnly (s t : GlobalState) : Prop :=
  t.current_iteration = s.current_iteration ∧
  t.max_iterations = s.max_iterations ∧
  t.stability_threshold = s.stability_threshold ∧
  t.project_complete = s.project_complete ∧
  (∀ b, t.outputsOf b = s.outputsOf b) ∧
  t.coordinator_outputs = s.coordinator_outputs ∧
  t.last_update_iteration = s.last_update_iteration

theorem mailOnly_refl (s : GlobalState) : MailOnly s s :=
  ⟨rfl, rfl, rfl, rfl, fun _ => rfl, rfl, rfl⟩

theorem mailOnly_trans {s t u : GlobalState} (h1 : MailOnly s t) (h2 : MailOnly t u) :
    MailOnly s u := by
  obtain ⟨a1, a2, a3, a4, a5, a6, a7⟩ := h1
  obtain ⟨b1, b2, b3, b4, b5, b6, b7⟩ := h2
  exact ⟨b1.trans a1, b2.trans a2, b3.trans a3, b4.trans a4,
    fun b => (b5 b).trans (a5 b), b6.trans a6, b7.trans a7⟩

theorem addToMailbox_mailOnly (s : GlobalState) (k : String) (m : StoredMessage) :
    MailOnly s (addToMailbox s k m) := by
  unfold addToMailbox
  cases s.mailboxes.lookup k with
  | none => exact mailOnly_refl s
  | some box =>
      refine ⟨rfl, rfl, rfl, rfl, fun b => ?_, rfl, rfl⟩
      cases b <;> rfl

theorem foldl_preserves {σ α : Type} (P : σ → Prop) (g : σ → α → σ)
    (h : ∀ st x, P st → P (g st x)) :
    ∀ (l : List α) (s : σ), P s → P (l.foldl g s) := by
  intro l
  induction l with
  | nil => intro s hs; exact hs
  | cons hd tl ih => intro s hs; exact ih (g s hd) (h s hd hs)

theorem dispatchOnce_mailOnly (a : WorkerName) (s : GlobalState) (msgs : List AgentMessage) :
    MailOnly s (dispatchOnce a s msgs) := by
  unfold dispatchOnce
  refine foldl_preserves (MailOnly s) _ ?_ msgs s (mailOnly_refl s)
  intro st msg hst
  by_cases h : can_communicate_with a msg.to_agent
  · simp only [h, if_true]
    exact mailOnly_trans hst (addToMailbox_mailOnly st _ _)
  · simpa [h] using hst

theorem send_messages_mailOnly (a : WorkerName) (s : GlobalState) (msgs : List AgentMessage) :
    MailOnly s (send_messages a s msgs) :=
  mailOnly_trans (dispatchOnce_mailOnly a s msgs)
    (dispatchOnce_mailOnly a (dispatchOnce a s msgs) msgs)

theorem setOutputsOf_fields (s : GlobalState) (a : WorkerName) (d : Dict Nat WorkerOutput) :
    (s.setOutputsOf a d).current_iteration = s.current_iteration ∧
    (s.setOutputsOf a d).max_iterations = s.max_iterations ∧
    (s.setOutputsOf a d).stability_threshold = s.stability_threshold ∧
    (s.setOutputsOf a d).project_complete = s.project_complete ∧
    (s.setOutputsOf a d).coordinator_outputs = s.coordinator_outputs ∧
    (s.setOutputsOf a d).last_update_iteration = s.last_update_iteration ∧
    (s.setOutputsOf a d).mailboxes = s.mailboxes := by
  cases a <;> exact ⟨rfl, rfl, rfl, rfl, rfl, rfl, rfl⟩

theorem outputsOf_setOutputsOf (s : GlobalState) (a b : WorkerName) (d : Dict Nat WorkerOutput) :
    (s.setOutputsOf a d).outputsOf b = if b = a then d else s.outputsOf b := by
  cases a <;> cases b <;> simp [GlobalState.setOutputsOf, GlobalState.outputsOf]

/-- The observable footprint of one worker invocation: every state component
except this worker's output slot, its own `last_update_iteration` row and the
mailboxes is untouched, other workers' slots are untouched, and existing
bindings in this worker's slot survive. -/
def WorkerEffect (a : WorkerName) (s t : GlobalState) : Prop :=
  t.current_iteration = s.current_iteration ∧
  t.max_iterations = s.max_iterations ∧
  t.stability_threshold = s.stability_threshold ∧
  t.project_complete = s.project_complete ∧
  t.coordinator_outputs = s.coordinator_outputs ∧
  (∀ b, b ≠ a → t.outputsOf b = s.outputsOf b) ∧
  (∀ i v, (s.outputsOf a).lookup i = some v → (t.outputsOf a).lookup i = some v)

theorem workerEffect_refl (a : WorkerName) (s : GlobalState) : WorkerEffect a s s :=
  ⟨rfl, rfl, rfl, rfl, rfl, fun _ _ => rfl, fun _ _ h => h⟩

theorem workerEffect_of_mailOnly {a : WorkerName} {s t u : GlobalState}
    (h1 : WorkerEffect a s t) (h2 : MailOnly t u) : WorkerEffect a s u := by
  obtain ⟨a1, a2, a3, a4, a5, a6, a7⟩ := h1
  obtain ⟨b1, b2, b3, b4, b5, b6, b7⟩ := h2
  exact ⟨b1.trans a1, b2.trans a2, b3.trans a3, b4.trans a4, b6.trans a5,
    fun b hb => (b5 b).trans (a6 b hb),
    fun i v hv => by rw [b5 a]; exact a7 i v hv⟩

theorem commit_and_dispatch_effect (a : WorkerName) (out : WorkerOutput) (s : GlobalState)
    (hguard : (s.outputsOf a).contains s.current_iteration = false) :
    WorkerEffect a s (commit_and_dispatch a out s) := by
  have hnone : (s.outputsOf a).lookup s.current_iteration = none := by
    unfold Dict.contains at hguard
    cases hl : (s.outputsOf a).lookup s.current_iteration with
    | none => rfl
    | some w => rw [hl] at hguard; simp at hguard
  have heff1 : ∀ d : Dict Nat WorkerOutput,
      (∀ i v, (s.outputsOf a).lookup i = some v → d.lookup i = some v) →
      WorkerEffect a s (s.setOutputsOf a d) := by
    intro d hd
    obtain ⟨f1, f2, f3, f4, f5, f6, f7⟩ := setOutputsOf_fields s a d
    refine ⟨f1, f2, f3, f4, f5, fun b hb => ?_, fun i v hv => ?_⟩
    · rw [outputsOf_setOutputsOf, if_neg hb]
    · rw [outputsOf_setOutputsOf, if_pos rfl]; exact hd i v hv
  have hlui : ∀ (st : GlobalState) (l : Dict String Int), WorkerEffect a s st →
      WorkerEffect a s { st with last_update_iteration := l } := by
    intro st l h
    obtain ⟨a1, a2, a3, a4, a5, a6, a7⟩ := h
    have houts : ∀ b, ({ st with last_update_iteration := l } : GlobalState).outputsOf b
        = st.outputsOf b := by
      intro b; cases b <;> rfl
    exact ⟨a1, a2, a3, a4, a5, fun b hb => (houts b).trans (a6 b hb),
      fun i v hv => by rw [houts a]; exact a7 i v hv⟩
  have hins : ∀ i v, (s.outputsOf a).lookup i = some v →
      ((s.outputsOf a).insert s.current_iteration
        { out with iteration := s.current_iteration }).lookup i = some v := by
    intro i v hv
    rw [Dict.lookup_insert]
    by_cases hi : i = s.current_iteration
    · rw [hi] at hv; rw [hv] at hnone; cases hnone
    · rw [if_neg hi]; exact hv
  unfold commit_and_dispatch
  dsimp only
  split
  · split
    · exact hlui _ _ (heff1 _ hins)
    · exact heff1 _ hins
  · split
    · exact workerEffect_of_mailOnly (hlui _ _ (heff1 _ hins))
        (send_messages_mailOnly a _ _)
    · exact workerEffect_of_mailOnly (heff1 _ hins) (send_messages_mailOnly a _ _)

theorem process_effect (a : WorkerName) (r : DecisionResult) (s : GlobalState) :
    WorkerEffect a s (process a r s) := by
  unfold process
  cases get_task_for_current_iteration a s with
  | none => exact workerEffect_refl a s
  | some task =>
      by_cases ht : task = ""
      · simp only [ht, if_true]; exact workerEffect_refl a s
      · simp only [ht, if_false]
        by_cases hd : check_dependencies_ready a s
        · simp only [hd, Bool.not_true, Bool.false_eq_true, if_false]
          by_cases hc : (s.outputsOf a).contains s.current_iteration
          · simp only [hc, if_true]; exact workerEffect_refl a s
          · simp only [hc, if_false]
            cases r with
            | error e => exact workerEffect_refl a s
            | ok o =>
                cases o with
                | none => exact workerEffect_refl a s
                | some out =>
                    exact commit_and_dispatch_effect a out s (by simpa using hc)
        · simp only [hd, Bool.not_false, if_true]; exact workerEffect_refl a s

theorem outputsOf_eq_of_parts {s t : GlobalState}
    (h1 : t.mission_planner_outputs = s.mission_planner_outputs)
    (h2 : t.aerodynamics_outputs = s.aerodynamics_outputs)
    (h3 : t.propulsion_outputs = s.propulsion_outputs)
    (h4 : t.structures_outputs = s.structures_outputs)
    (h5 : t.manufacturing_outputs = s.manufacturing_outputs) :
    ∀ b, t.outputsOf b = s.outputsOf b := by
  intro b; cases b <;> simp [GlobalState.outputsOf, h1, h2, h3, h4, h5]

theorem coordinator_finish_props (cur : Nat) (o : CoordinatorOutput) (s' : GlobalState) :
    (coordinator_finish cur o s').max_iterations = s'.max_iterations ∧
    (coordinator_finish cur o s').stability_threshold = s'.stability_threshold ∧
    (∀ b, (coordinator_finish cur o s').outputsOf b = s'.outputsOf b) ∧
    (∀ i v, i ≠ cur → s'.coordinator_outputs.lookup i = some v →
        (coordinator_finish cur o s').coordinator_outputs.lookup i = some v) ∧
    (coordinator_finish cur o s').project_complete = o.project_complete ∧
    (o.project_complete = false →
        (coordinator_finish cur o s').current_iteration = s'.current_iteration + 1) ∧
    (o.project_complete = true →
        (coordinator_finish cur o s').current_iteration = s'.current_iteration) ∧
    (coordinator_finish cur o s').coordinator_outputs.lookup cur
        = some { o with iteration := cur } ∧
    (coordinator_finish cur o s').last_update_iteration = s'.last_update_iteration := by
  have hm : ∀ (msgs : List AgentMessage) (st0 : GlobalState), MailOnly st0
      (msgs.foldl (fun st msg =>
        if st.mailboxes.contains msg.to_agent then
          addToMailbox st msg.to_agent
            { from_agent := "coordinator"
              to_agent := msg.to_agent
              content := msg.content
              iteration := cur }
        else st) st0) := by
    intro msgs st0
    refine foldl_preserves (MailOnly st0) _ ?_ msgs st0 (mailOnly_refl st0)
    intro st msg hst
    split
    · exact mailOnly_trans hst (addToMailbox_mailOnly st _ _)
    · exact hst
  have hins : (s'.coordinator_outputs.insert cur { o with iteration := cur }).lookup cur
      = some { o with iteration := cur } := by
    rw [Dict.lookup_insert, if_pos rfl]
  have hinsne : ∀ i v, i ≠ cur → s'.coordinator_outputs.lookup i = some v →
      (s'.coordinator_outputs.insert cur { o with iteration := cur }).lookup i = some v := by
    intro i v hne hv
    rw [Dict.lookup_insert, if_neg hne]
    exact hv
  unfold coordinator_finish
  dsimp only
  set s1 : GlobalState := { s' with
      coordinator_outputs := s'.coordinator_outputs.insert cur { o with iteration := cur }
      project_complete := o.project_complete } with hs1
  obtain ⟨m1, m2, m3, m4, m5, m6, m7⟩ :=
    hm ({ o with iteration := cur } : CoordinatorOutput).messages s1
  split
  · -- continuing: increment the iteration
    rename_i hnc
    have hpc : o.project_complete = false := by
      cases hb : o.project_complete
      · rfl
      · rw [hb] at hnc; simp at hnc
    refine ⟨m2, m3, ?_, ?_, m4, fun _ => ?_, fun hh => ?_, ?_, m7⟩
    · intro b
      exact ((outputsOf_eq_of_parts rfl rfl rfl rfl rfl b).trans (m5 b)).trans
        (outputsOf_eq_of_parts rfl rfl rfl rfl rfl b)
    · intro i v hne hv
      exact (congrArg (fun d => Dict.lookup d i) m6).trans (hinsne i v hne hv)
    · exact congrArg (fun n => n + 1) m1
    · rw [hpc] at hh; exact Bool.noConfusion hh
    · exact (congrArg (fun d => Dict.lookup d cur) m6).trans hins
  · -- complete: iteration unchanged
    rename_i hnc
    have hpc : o.project_complete = true := by
      cases hb : o.project_complete
      · rw [hb] at hnc; simp at hnc
      · rfl
    refine ⟨m2, m3, ?_, ?_, m4, fun hh => ?_, fun _ => ?_, ?_, m7⟩
    · intro b
      exact (m5 b).trans (outputsOf_eq_of_parts rfl rfl rfl rfl rfl b)
    · intro i v hne hv
      exact (congrArg (fun d => Dict.lookup d i) m6).trans (hinsne i v hne hv)
    · rw [hpc] at hh; exact Bool.noConfusion hh
    · exact m1
    · exact (congrArg (fun d => Dict.lookup d cur) m6).trans hins

/-- The observable footprint of one coordinator invocation: worker outputs,
`max_iterations` and `stability_threshold` untouched; already-recorded
coordinator outputs survive; `current_iteration` is incremented exactly when
the recorded decision is to continue. -/
def CoordEffect (s t : GlobalState) : Prop :=
  t.max_iterations = s.max_iterations ∧
  t.stability_threshold = s.stability_threshold ∧
  (∀ b, t.outputsOf b = s.outputsOf b) ∧
  (∀ i v, i < s.current_iteration → s.coordinator_outputs.lookup i = some v →
      t.coordinator_outputs.lookup i = some v) ∧
  (t.project_complete = false → t.current_iteration = s.current_iteration + 1) ∧
  (t.project_complete = true → t.current_iteration = s.current_iteration)

theorem coordinator_effect (o : CoordinatorOutput) (s : GlobalState) :
    CoordEffect s (coordinator_process o s) := by
  have hmain : ∀ (o' : CoordinatorOutput) (s'' : GlobalState),
      s''.max_iterations = s.max_iterations →
      s''.stability_threshold = s.stability_threshold →
      (∀ b, s''.outputsOf b = s.outputsOf b) →
      s''.coordinator_outputs = s.coordinator_outputs →
      s''.current_iteration = s.current_iteration →
      CoordEffect s (coordinator_finish s.current_iteration o' s'') := by
    intro o' s'' hmax hth houts hco hcur
    obtain ⟨p1, p2, p3, p4, p5, p6, p7, p8, p9⟩ :=
      coordinator_finish_props s.current_iteration o' s''
    refine ⟨p1.trans hmax, p2.trans hth, fun b => (p3 b).trans (houts b),
      fun i v hi hv => ?_, fun hpc => ?_, fun hpc => ?_⟩
    · exact p4 i v (Nat.ne_of_lt hi) (by rw [hco]; exact hv)
    · have : o'.project_complete = false := by rw [← p5]; exact hpc
      rw [p6 this, hcur]
    · have : o'.project_complete = true := by rw [← p5]; exact hpc
      rw [p7 this, hcur]
  unfold coordinator_process
  dsimp only
  split
  · exact hmain o s rfl rfl (fun _ => rfl) rfl rfl
  · split
    · exact hmain (notStableOutput s.current_iteration) s rfl rfl (fun _ => rfl) rfl rfl
    · split
      · exact hmain o _ rfl rfl
          (outputsOf_eq_of_parts rfl rfl rfl rfl rfl) rfl rfl
      · exact hmain o s rfl rfl (fun _ => rfl) rfl rfl

theorem aggregator_fields (res : WorkerName → DecisionResult) (s : GlobalState) :
    (aggregator_node res s).current_iteration = s.current_iteration ∧
    (aggregator_node res s).max_iterations = s.max_iterations ∧
    (aggregator_node res s).project_complete = s.project_complete ∧
    (aggregator_node res s).stability_threshold = s.stability_threshold ∧
    (aggregator_node res s).coordinator_outputs = s.coordinator_outputs := by
  unfold aggregator_node
  refine foldl_preserves (fun st => st.current_iteration = s.current_iteration ∧
      st.max_iterations = s.max_iterations ∧
      st.project_complete = s.project_complete ∧
      st.stability_threshold = s.stability_threshold ∧
      st.coordinator_outputs = s.coordinator_outputs) _ ?_ WORKERS s
    ⟨rfl, rfl, rfl, rfl, rfl⟩
  intro st b hst
  obtain ⟨e1, e2, e3, e4, e5, _, _⟩ := process_effect b (res b) st
  exact ⟨e1.trans hst.1, e2.trans hst.2.1, e4.trans hst.2.2.1,
    e3.trans hst.2.2.2.1, e5.trans hst.2.2.2.2⟩

theorem aggregator_preserves_outputs (res : WorkerName → DecisionResult)
    (s : GlobalState) (a : WorkerName) (i : Nat) (v : WorkerOutput)
    (h : (s.outputsOf a).lookup i = some v) :
    ((aggregator_node res s).outputsOf a).lookup i = some v := by
  unfold aggregator_node
  refine foldl_preserves (fun st => (st.outputsOf a).lookup i = some v) _ ?_ WORKERS s h
  intro st b hst
  obtain ⟨_, _, _, _, _, e6, e7⟩ := process_effect b (res b) st
  by_cases hb : b = a
  · subst hb; exact e7 i v hst
  · rw [e6 a (fun ha => hb ha.symm)]; exact hst

/-- The scheduler loop (src/workflow.py): entry point is the coordinator; if
`should_continue` says "end" (`project_complete` or
`current_iteration >= max_iterations`) the run stops, otherwise the worker
round runs and control returns to the coordinator.  The second component
counts worker rounds.  `coordOracle`/`workerOracle` supply the (iteration-
indexed) LLM decisions; termination is by the strictly decreasing measure
`max_iterations - current_iteration`. -/
def runLoop (coordOracle : Nat → CoordinatorOutput)
    (workerOracle : Nat → WorkerName → DecisionResult) (s : GlobalState) :
    GlobalState × Nat :=
  let s1 := coordinator_process (coordOracle s.current_iteration) s
  if h : s1.project_complete = true ∨ s1.max_iterations ≤ s1.current_iteration then (s1, 0)
  else
    let s2 := aggregator_node (workerOracle s1.current_iteration) s1
    let r := runLoop coordOracle workerOracle s2
    (r.1, r.2 + 1)
termination_by s.max_iterations - s.current_iteration
decreasing_by
  push_neg at h
  obtain ⟨hc, hlt⟩ := h
  obtain ⟨g1, g2, _, _, _⟩ :=
    aggregator_fields (workerOracle (coordinator_process (coordOracle s.current_iteration) s).current_iteration)
      (coordinator_process (coordOracle s.current_iteration) s)
  obtain ⟨c1, _, _, _, c5, _⟩ := coordinator_effect (coordOracle s.current_iteration) s
  have hfalse : (coordinator_process (coordOracle s.current_iteration) s).project_complete = false := by
    cases hb : (coordinator_process (coordOracle s.current_iteration) s).project_complete
    · rfl
    · exact absurd hb hc
  have hinc := c5 hfalse
  rw [g1, g2, hinc, c1]
  rw [hinc, c1] at hlt
  omega

/-- Combined loop invariant: the run stops only in a "complete or cap
reached" state, makes at most `max_iterations - current_iteration` worker
rounds, never decreases `current_iteration`, keeps `max_iterations`, and
never alters an already-committed output (worker or coordinator). -/
theorem runLoop_main (co : Nat → CoordinatorOutput)
    (wo : Nat → WorkerName → DecisionResult) :
    ∀ (n : Nat) (s : GlobalState), s.max_iterations - s.current_iteration = n →
    ((runLoop co wo s).1.project_complete = true ∨
        (runLoop co wo s).1.max_iterations ≤ (runLoop co wo s).1.current_iteration) ∧
    (runLoop co wo s).2 ≤ s.max_iterations - s.current_iteration ∧
    s.current_iteration ≤ (runLoop co wo s).1.current_iteration ∧
    (runLoop co wo s).1.max_iterations = s.max_iterations ∧
    (∀ a i v, (s.outputsOf a).lookup i = some v →
        ((runLoop co wo s).1.outputsOf a).lookup i = some v) ∧
    (∀ i v, i < s.current_iteration → s.coordinator_outputs.lookup i = some v →
        (runLoop co wo s).1.coordinator_outputs.lookup i = some v) := by
  intro n
  induction n using Nat.strong_induction_on with
  | _ n ih =>
    intro s hn
    obtain ⟨c1, c2, c3, c4, c5, c6⟩ := coordinator_effect (co s.current_iteration) s
    rw [runLoop]
    set s1 := coordinator_process (co s.current_iteration) s with hs1
    split
    · rename_i h
      dsimp only
      refine ⟨h, Nat.zero_le _, ?_, c1, fun a i v hv => ?_, c4⟩
      · cases hb : s1.project_complete with
        | false => rw [c5 hb]; omega
        | true => rw [c6 hb]
      · rw [c3 a]; exact hv
    · rename_i h
      dsimp only
      push_neg at h
      obtain ⟨hc', hlt⟩ := h
      have hc : s1.project_complete = false := by
        cases hb : s1.project_complete
        · rfl
        · exact absurd hb hc'
      have hinc : s1.current_iteration = s.current_iteration + 1 := c5 hc
      have hmax1 : s1.max_iterations = s.max_iterations := c1
      set s2 := aggregator_node (wo s1.current_iteration) s1 with hs2
      obtain ⟨g1, g2, g3, g4, g5⟩ := aggregator_fields (wo s1.current_iteration) s1
      have e1 : s2.current_iteration = s.current_iteration + 1 := g1.trans hinc
      have e2 : s2.max_iterations = s.max_iterations := g2.trans hmax1
      rw [hinc, hmax1] at hlt
      have hm_lt : s2.max_iterations - s2.current_iteration < n := by omega
      obtain ⟨I1, I2, I3, I4, I5, I6⟩ := ih _ hm_lt s2 rfl
      refine ⟨I1, ?_, ?_, I4.trans e2, fun a i v hv => ?_, fun i v hi hv => ?_⟩
      · omega
      · omega
      · have hv1 : (s1.outputsOf a).lookup i = some v := by rw [c3 a]; exact hv
        have hv2 : (s2.outputsOf a).lookup i = some v :=
          aggregator_preserves_outputs (wo s1.current_iteration) s1 a i v hv1
        exact I5 a i v hv2
      · have hv1 : (s1.coordinator_outputs).lookup i = some v := c4 i v hi hv
        have hv2 : (s2.coordinator_outputs).lookup i = some v := by
          rw [g5]; exact hv1
        exact I6 i v (by omega) hv2

/-! ## Auxiliary no-op lemmas for BaseAgent.process -/

theorem process_noop_of_gate_false (a : WorkerName) (r : DecisionResult) (s : GlobalState)
    (h : check_dependencies_ready a s = false) : process a r s = s := by
  unfold process
  cases get_task_for_current_iteration a s with
  | none => rfl
  | some t =>
      by_cases ht : t = ""
      · simp [ht]
      · simp [ht, h]

theorem process_noop_of_contains (a : WorkerName) (r : DecisionResult) (s : GlobalState)
    (h : (s.outputsOf a).contains s.current_iteration = true) : process a r s = s := by
  unfold process
  cases get_task_for_current_iteration a s with
  | none => rfl
  | some t =>
      by_cases ht : t = ""
      · simp [ht]
      · by_cases hd : check_dependencies_ready a s
        · simp [ht, hd, h]
        · simp [ht, hd]

/-! ## Concrete fixtures for witnesses and counterexamples -/

/-- The six mailboxes registered by `GlobalState`'s default factory. -/
def initMailboxes : Dict String (List StoredMessage) :=
  ⟨[("coordinator", []), ("mission_planner", []), ("aerodynamics", []),
    ("propulsion", []), ("structures", []), ("manufacturing", [])]⟩

/-- The five sentinel rows of `last_update_iteration`'s default factory. -/
def initLastUpdate : Dict String Int :=
  ⟨[("mission_planner", -1), ("aerodynamics", -1), ("propulsion", -1),
    ("structures", -1), ("manufacturing", -1)]⟩

/-- A fresh `GlobalState` as built by `run_uav_design_project`. -/
def baseState : GlobalState :=
  { mission_planner_outputs := Dict.empty
    aerodynamics_outputs := Dict.empty
    propulsion_outputs := Dict.empty
    structures_outputs := Dict.empty
    manufacturing_outputs := Dict.empty
    coordinator_outputs := Dict.empty
    mailboxes := initMailboxes
    current_iteration := 0
    max_iterations := MAX_ITERATIONS
    stability_threshold := STABILITY_THRESHOLD
    last_update_iteration := initLastUpdate
    project_complete := false
    user_requirements := "Design a small survey UAV" }

def sampleMissionOutput : WorkerOutput :=
  { core := CoreFields.missionPlanner 25 100 5 4 1200, messages := [], iteration := 0 }

def sampleAeroOutput : WorkerOutput :=
  { core := CoreFields.aerodynamics 2 8 "NACA2412" 15 12, messages := [], iteration := 0 }

/-- Differs from `sampleAeroOutput` in compared (core) fields. -/
def aeroNew : WorkerOutput :=
  { core := CoreFields.aerodynamics 3 9 "NACA4412" 14 11, messages := [], iteration := 1 }

/-- Same core as `sampleAeroOutput`, different only in the non-compared
`messages` field. -/
def aeroSameCore : WorkerOutput :=
  { core := CoreFields.aerodynamics 2 8 "NACA2412" 15 12
    messages := [{ to_agent := "structures", content := "wing loads unchanged" }]
    iteration := 1 }

/-- A bootstrap coordinator output assigning every worker a task. -/
def coTask : CoordinatorOutput :=
  { project_complete := false
    completion_reason := "bootstrap"
    agent_tasks :=
      [{ agent_name := "mission_planner", task_description := "Define mission" },
       { agent_name := "aerodynamics", task_description := "Design wings" },
       { agent_name := "propulsion", task_description := "Size motor" },
       { agent_name := "structures", task_description := "Design structure" },
       { agent_name := "manufacturing", task_description := "Estimate cost" }]
    messages := []
    iteration := 0 }

def coComplete : CoordinatorOutput :=
  { project_complete := true
    completion_reason := "design converged"
    agent_tasks := []
    messages := []
    iteration := 0 }

/-- State in which the current iteration is 2 and all mailboxes are empty. -/
def sC1 : GlobalState := { baseState with current_iteration := 2 }

/-- State in which mission_planner has an output for iteration 0 only, and the
current iteration is 1 with tasks assigned at iteration 0. -/
def sC2 : GlobalState :=
  { baseState with
    current_iteration := 1
    coordinator_outputs := ⟨[(0, coTask)]⟩
    mission_planner_outputs := ⟨[(0, sampleMissionOutput)]⟩ }

/-! ## Claim theorems -/

/-- C1: the spec requires a propulsion→aerodynamics message to appear exactly
once in aerodynamics' mailbox and a propulsion→manufacturing message never to
appear; on the code, `BaseAgent.send_messages` contains its dispatch loop
twice, so the allowed message is delivered twice (stamped with the sending
iteration) while the disallowed one is still dropped.  Evaluated at a
concrete state with empty mailboxes at iteration 2. -/
theorem claim_C1_duplicate_delivery :
    ((send_messages .propulsion sC1
        [{ to_agent := "aerodynamics", content := "flutter risk" },
         { to_agent := "manufacturing", content := "cost concern" }]).mailboxes.lookup
      "aerodynamics"
      = some [{ from_agent := "propulsion", to_agent := "aerodynamics",
                content := "flutter risk", iteration := 2 },
              { from_agent := "propulsion", to_agent := "aerodynamics",
                content := "flutter risk", iteration := 2 }]) ∧
    ((send_messages .propulsion sC1
        [{ to_agent := "aerodynamics", content := "flutter risk" },
         { to_agent := "manufacturing", content := "cost concern" }]).mailboxes.lookup
      "manufacturing" = some []) := by
  constructor
  · decide
  · decide

/-- C2 counterexample: the claim says that whenever mission_planner has no
output recorded for the *current* iteration, the aerodynamics worker is a
no-op.  In this state mission_planner has an output only for iteration 0
while the current iteration is 1 — yet aerodynamics' gate passes and its
process commits an output for iteration 1. -/
theorem claim_C2_counterexample :
    sC2.mission_planner_outputs.contains sC2.current_iteration = false ∧
    check_dependencies_ready .aerodynamics sC2 = true ∧
    (process .aerodynamics (.ok (some aeroNew)) sC2).aerodynamics_outputs.contains
      sC2.current_iteration = true := by
  refine ⟨by decide, by decide, by decide⟩

/-- C2 (amended): each worker's dependency gate tests that the upstream
agents have at least one committed output from *any* iteration (non-empty
output history), not an output for the current iteration: aerodynamics and
propulsion require mission_planner's history non-empty, structures requires
mission_planner's and aerodynamics' histories non-empty, manufacturing
requires structures' history non-empty; when the gate fails the worker's
process is a no-op committing nothing. -/
theorem claim_C2_amended_gate (s : GlobalState) (r : DecisionResult) :
    (check_dependencies_ready .aerodynamics s = !s.mission_planner_outputs.isEmpty) ∧
    (check_dependencies_ready .propulsion s = !s.mission_planner_outputs.isEmpty) ∧
    (check_dependencies_ready .structures s
      = (!s.mission_planner_outputs.isEmpty && !s.aerodynamics_outputs.isEmpty)) ∧
    (check_dependencies_ready .manufacturing s = !s.structures_outputs.isEmpty) ∧
    (s.mission_planner_outputs.isEmpty = true →
      process .aerodynamics r s = s ∧ process .propulsion r s = s) ∧
    ((s.mission_planner_outputs.isEmpty = true ∨ s.aerodynamics_outputs.isEmpty = true) →
      process .structures r s = s) ∧
    (s.structures_outputs.isEmpty = true → process .manufacturing r s = s) := by
  refine ⟨rfl, rfl, rfl, rfl, fun h => ⟨?_, ?_⟩, fun h => ?_, fun h => ?_⟩
  · exact process_noop_of_gate_false _ r s (by simp [check_dependencies_ready, h])
  · exact process_noop_of_gate_false _ r s (by simp [check_dependencies_ready, h])
  · refine process_noop_of_gate_false _ r s ?_
    cases h with
    | inl h => simp [check_dependencies_ready, h]
    | inr h => simp [check_dependencies_ready, h]
  · exact process_noop_of_gate_false _ r s (by simp [check_dependencies_ready, h])

/-- C2 witness: on the fresh state (no outputs anywhere) the gated workers
are no-ops. -/
theorem claim_C2_witness :
    process .aerodynamics (.ok (some aeroNew)) baseState = baseState ∧
    process .structures (.ok (some aeroNew)) baseState = baseState ∧
    process .manufacturing (.ok (some aeroNew)) baseState = baseState := by
  refine ⟨((claim_C2_amended_gate baseState (.ok (some aeroNew))).2.2.2.2.1 (by decide)).1,
    (claim_C2_amended_gate baseState (.ok (some aeroNew))).2.2.2.2.2.1 (Or.inl (by decide)),
    (claim_C2_amended_gate baseState (.ok (some aeroNew))).2.2.2.2.2.2 (by decide)⟩

/-- C7: the spec says the decision context contains, for each allowed peer
with any committed output, that peer's latest output; in the code
`BaseAgent.get_communicable_agents_outputs` builds that dictionary but falls
off the end without a `return`, so it always yields `None` and the peer
outputs never reach the context — even in a state where the dictionary it
builds internally is non-empty. -/
theorem claim_C7_context_missing_return :
    (∀ (a : WorkerName) (s : GlobalState), get_communicable_agents_outputs a s = none) ∧
    (communicable_agents_outputs_dict .aerodynamics sC2).lookup "mission_planner"
      = some sampleMissionOutput := by
  refine ⟨fun a s => rfl, by decide⟩

/-- C8: an exception in the decision step (`Except.error` from the oracle) is
caught at the agent boundary and the worker's process returns the state
completely unchanged — no output committed, `last_update_iteration` and all
mailboxes untouched — so the idempotency guard will not block a retry in the
next round. -/
theorem claim_C8_failure_atomicity (a : WorkerName) (s : GlobalState) :
    process a (.error ()) s = s := by
  unfold process
  cases get_task_for_current_iteration a s with
  | none => rfl
  | some t =>
      by_cases ht : t = ""
      · simp [ht]
      · by_cases hd : check_dependencies_ready a s
        · by_cases hc : (s.outputsOf a).contains s.current_iteration
          · simp [ht, hd, hc]
          · simp [ht, hd, hc]
        · simp [ht, hd]

/-- C3: `check_stability` equals the spec formula
`current_iteration >= stability_threshold AND for every agent,
current_iteration - last_update_iteration[agent] >= stability_threshold`,
and in particular returns false whenever
`current_iteration < stability_threshold`, regardless of all other state. -/
theorem claim_C3_stability (s : GlobalState) :
    (check_stability s =
      (decide (s.stability_threshold ≤ s.current_iteration) &&
        s.last_update_iteration.entries.all (fun p =>
          decide ((s.stability_threshold : Int) ≤ (s.current_iteration : Int) - p.2)))) ∧
    (s.current_iteration < s.stability_threshold → check_stability s = false) := by
  have hpt : ∀ p : String × Int,
      (!decide ((s.current_iteration : Int) - p.2 < (s.stability_threshold : Int)))
        = decide ((s.stability_threshold : Int) ≤ (s.current_iteration : Int) - p.2) := by
    intro p
    by_cases hlt : (s.current_iteration : Int) - p.2 < (s.stability_threshold : Int)
    · simp [hlt, not_le.mpr hlt]
    · simp [hlt, not_lt.mp hlt]
  constructor
  · unfold check_stability
    by_cases h : s.current_iteration < s.stability_threshold
    · simp [h, Nat.not_le.mpr h]
    · have hle : s.stability_threshold ≤ s.current_iteration := Nat.not_lt.mp h
      simp [h, hle, hpt]
  · intro h
    unfold check_stability
    simp [h]

/-- C3 witness: boundary case from the spec — threshold 3, iteration 2. -/
theorem claim_C3_witness : check_stability sC1 = false :=
  (claim_C3_stability sC1).2 (by decide)

/-- C5: output-history immutability.  Once an output is committed (for any
worker, or for the coordinator at a past iteration), it survives the entire
remaining run unchanged; and a worker's process is a no-op whenever it
already has an output for the current iteration, so every (agent, iteration)
key is written at most once. -/
theorem claim_C5_immutability (co : Nat → CoordinatorOutput)
    (wo : Nat → WorkerName → DecisionResult) (s : GlobalState) (a : WorkerName)
    (r : DecisionResult) (i : Nat) (v : WorkerOutput) (cv : CoordinatorOutput) :
    ((s.outputsOf a).lookup i = some v →
        ((runLoop co wo s).1.outputsOf a).lookup i = some v) ∧
    (i < s.current_iteration → s.coordinator_outputs.lookup i = some cv →
        (runLoop co wo s).1.coordinator_outputs.lookup i = some cv) ∧
    ((s.outputsOf a).contains s.current_iteration = true → process a r s = s) := by
  obtain ⟨_, _, _, _, h5, h6⟩ := runLoop_main co wo (s.max_iterations - s.current_iteration) s rfl
  exact ⟨h5 a i v, h6 i cv, process_noop_of_contains a r s⟩

/-- State for the C5 witness: aerodynamics already committed outputs for
iterations 0 and 1, coordinator output recorded for iteration 0, current
iteration 1. -/
def sC5 : GlobalState :=
  { baseState with
    current_iteration := 1
    coordinator_outputs := ⟨[(0, coTask)]⟩
    aerodynamics_outputs := ⟨[(0, sampleAeroOutput), (1, aeroNew)]⟩ }

/-- C5 witness: a committed aerodynamics output and a committed coordinator
output survive a full run, and the worker's process is a no-op on re-entry. -/
theorem claim_C5_witness :
    ((runLoop (fun _ => coComplete) (fun _ _ => .ok none) sC5).1.outputsOf
        .aerodynamics).lookup 0 = some sampleAeroOutput ∧
    (runLoop (fun _ => coComplete) (fun _ _ => .ok none) sC5).1.coordinator_outputs.lookup 0
      = some coTask ∧
    process .aerodynamics (.ok (some aeroNew)) sC5 = sC5 := by
  refine ⟨(claim_C5_immutability (fun _ => coComplete) (fun _ _ => .ok none) sC5
      .aerodynamics (.ok (some aeroNew)) 0 sampleAeroOutput coTask).1 (by decide),
    (claim_C5_immutability (fun _ => coComplete) (fun _ _ => .ok none) sC5
      .aerodynamics (.ok (some aeroNew)) 0 sampleAeroOutput coTask).2.1
      (by decide) (by decide),
    (claim_C5_immutability (fun _ => coComplete) (fun _ _ => .ok none) sC5
      .aerodynamics (.ok (some aeroNew)) 0 sampleAeroOutput coTask).2.2 (by decide)⟩

/-- C9: the scheduler loop terminates (it is a total function by the
decreasing measure `max_iterations - current_iteration`); the run ends
exactly in a state with `project_complete` or the iteration cap reached; the
number of worker rounds is at most `max_iterations`; `current_iteration` is
monotonically non-decreasing; a coordinator round increments it by exactly
one iff it does not complete, and a worker round never changes it; and the
cap can end a run with `project_complete` still false. -/
theorem claim_C9_termination (co : Nat → CoordinatorOutput)
    (wo : Nat → WorkerName → DecisionResult) (s s' : GlobalState) (o : CoordinatorOutput) :
    ((runLoop co wo s).1.project_complete = true ∨
        (runLoop co wo s).1.max_iterations ≤ (runLoop co wo s).1.current_iteration) ∧
    (runLoop co wo s).2 ≤ s.max_iterations ∧
    s.current_iteration ≤ (runLoop co wo s).1.current_iteration ∧
    ((coordinator_process o s').project_complete = false →
        (coordinator_process o s').current_iteration = s'.current_iteration + 1) ∧
    ((coordinator_process o s').project_complete = true →
        (coordinator_process o s').current_iteration = s'.current_iteration) ∧
    (∀ (a : WorkerName) (r : DecisionResult),
        (process a r s').current_iteration = s'.current_iteration) ∧
    (runLoop (fun _ => coTask) (fun _ _ => .ok none)
        { baseState with max_iterations := 0 }).1.project_complete = false := by
  obtain ⟨h1, h2, h3, _, _, _⟩ := runLoop_main co wo (s.max_iterations - s.current_iteration) s rfl
  obtain ⟨_, _, _, _, c5, c6⟩ := coordinator_effect o s'
  refine ⟨h1, le_trans h2 (Nat.sub_le _ _), h3, c5, c6,
    fun a r => (process_effect a r s').1, ?_⟩
  have hcond : (coordinator_process coTask { baseState with max_iterations := 0 }).project_complete
        = true ∨
      (coordinator_process coTask { baseState with max_iterations := 0 }).max_iterations ≤
        (coordinator_process coTask { baseState with max_iterations := 0 }).current_iteration := by
    decide
  rw [runLoop, dif_pos hcond]
  decide

/-- C9 witness: on the fresh state the run makes at most 20 worker rounds,
and a continuing bootstrap coordinator round moves the iteration to 1. -/
theorem claim_C9_witness :
    (runLoop (fun _ => coComplete) (fun _ _ => .ok none) baseState).2 ≤ 20 ∧
    (coordinator_process coTask baseState).current_iteration = 1 := by
  refine ⟨?_, ?_⟩
  · exact (claim_C9_termination (fun _ => coComplete) (fun _ _ => .ok none)
      baseState baseState coTask).2.1
  · exact (claim_C9_termination (fun _ => coComplete) (fun _ _ => .ok none)
      baseState baseState coTask).2.2.2.1 (by decide)

/-! ## Commit-path lemmas for the update classification claims -/

theorem process_commits (a : WorkerName) (out : WorkerOutput) (s : GlobalState) (t : String)
    (htask : get_task_for_current_iteration a s = some t) (ht : t ≠ "")
    (hdep : check_dependencies_ready a s = true)
    (hguard : (s.outputsOf a).contains s.current_iteration = false) :
    process a (.ok (some out)) s = commit_and_dispatch a out s := by
  unfold process
  rw [htask]
  simp [ht, hdep, hguard]

theorem should_update_after_commit (a : WorkerName) (s : GlobalState)
    (out : WorkerOutput) (k : Nat) (prev : WorkerOutput)
    (hguard : (s.outputsOf a).contains s.current_iteration = false)
    (hk : latestPriorKey (s.outputsOf a) s.current_iteration = some k)
    (hprev : (s.outputsOf a).lookup k = some prev) :
    should_update_last_iteration a
      (s.setOutputsOf a ((s.outputsOf a).insert s.current_iteration out)) out
      = decide (out.core ≠ prev.core) := by
  have hklt := latestPriorKey_lt _ _ _ hk
  have houts : (s.setOutputsOf a ((s.outputsOf a).insert s.current_iteration out)).outputsOf a
      = (s.outputsOf a).insert s.current_iteration out := by
    rw [outputsOf_setOutputsOf, if_pos rfl]
  have hcur : (s.setOutputsOf a ((s.outputsOf a).insert s.current_iteration out)).current_iteration
      = s.current_iteration :=
    (setOutputsOf_fields s a ((s.outputsOf a).insert s.current_iteration out)).1
  unfold should_update_last_iteration
  rw [houts, hcur]
  dsimp only
  rw [Dict.insert_isEmpty]
  simp only [Bool.false_eq_true, if_false]
  rw [latestPriorKey_insert_current _ _ _ hguard, hk]
  dsimp only
  rw [Dict.lookup_insert, if_neg (Nat.ne_of_lt hklt), hprev]

theorem should_update_after_commit_none (a : WorkerName) (s : GlobalState) (out : WorkerOutput)
    (hguard : (s.outputsOf a).contains s.current_iteration = false)
    (hlp : latestPriorKey (s.outputsOf a) s.current_iteration = none) :
    should_update_last_iteration a
      (s.setOutputsOf a ((s.outputsOf a).insert s.current_iteration out)) out = true := by
  have houts : (s.setOutputsOf a ((s.outputsOf a).insert s.current_iteration out)).outputsOf a
      = (s.outputsOf a).insert s.current_iteration out := by
    rw [outputsOf_setOutputsOf, if_pos rfl]
  have hcur : (s.setOutputsOf a ((s.outputsOf a).insert s.current_iteration out)).current_iteration
      = s.current_iteration :=
    (setOutputsOf_fields s a ((s.outputsOf a).insert s.current_iteration out)).1
  unfold should_update_last_iteration
  rw [houts, hcur]
  dsimp only
  rw [Dict.insert_isEmpty]
  simp only [Bool.false_eq_true, if_false]
  rw [latestPriorKey_insert_current _ _ _ hguard, hlp]

theorem commit_lookup_update (a : WorkerName) (out : WorkerOutput) (s : GlobalState)
    (hsu : should_update_last_iteration a
        (s.setOutputsOf a ((s.outputsOf a).insert s.current_iteration
          { out with iteration := s.current_iteration }))
        { out with iteration := s.current_iteration } = true) :
    (commit_and_dispatch a out s).last_update_iteration.lookup (WorkerName.toString a)
      = some (s.current_iteration : Int) := by
  unfold commit_and_dispatch
  dsimp only
  rw [hsu]
  simp only [if_true]
  split
  · rw [show ∀ st : GlobalState, ∀ l, ({ st with last_update_iteration := l }
        : GlobalState).last_update_iteration = l from fun _ _ => rfl]
    rw [Dict.lookup_insert, if_pos rfl]
  · have hmail := send_messages_mailOnly a
      { s.setOutputsOf a ((s.outputsOf a).insert s.current_iteration
          { out with iteration := s.current_iteration }) with
        last_update_iteration :=
          (s.setOutputsOf a ((s.outputsOf a).insert s.current_iteration
            { out with iteration := s.current_iteration })).last_update_iteration.insert
            (WorkerName.toString a) (s.current_iteration : Int) }
      ({ out with iteration := s.current_iteration } : WorkerOutput).messages
    rw [hmail.2.2.2.2.2.2]
    rw [Dict.lookup_insert, if_pos rfl]

theorem commit_lookup_maintain (a : WorkerName) (out : WorkerOutput) (s : GlobalState)
    (hsu : should_update_last_iteration a
        (s.setOutputsOf a ((s.outputsOf a).insert s.current_iteration
          { out with iteration := s.current_iteration }))
        { out with iteration := s.current_iteration } = false) :
    (commit_and_dispatch a out s).last_update_iteration = s.last_update_iteration := by
  have f6 := (setOutputsOf_fields s a ((s.outputsOf a).insert s.current_iteration
    { out with iteration := s.current_iteration })).2.2.2.2.2.1
  unfold commit_and_dispatch
  dsimp only
  rw [hsu]
  simp only [Bool.false_eq_true, if_false]
  split
  · exact f6
  · have hmail := send_messages_mailOnly a
      (s.setOutputsOf a ((s.outputsOf a).insert s.current_iteration
        { out with iteration := s.current_iteration }))
      ({ out with iteration := s.current_iteration } : WorkerOutput).messages
    rw [hmail.2.2.2.2.2.2]
    exact f6

/-- C4: update classification is exact equality on all output fields except
`iteration` and `messages`.  With a prior committed output `prev` (the one at
the highest key below the current iteration), the classification run by
`process` on the post-commit state yields UPDATE exactly when the core fields
differ; on the UPDATE side `process` sets `last_update_iteration[agent]` to
the current iteration, and on the MAINTAIN side (e.g. outputs differing only
in `messages`) it leaves `last_update_iteration` unchanged. -/
theorem claim_C4_update_classification (a : WorkerName) (s : GlobalState)
    (out prev : WorkerOutput) (t : String) (k : Nat)
    (htask : get_task_for_current_iteration a s = some t) (ht : t ≠ "")
    (hdep : check_dependencies_ready a s = true)
    (hguard : (s.outputsOf a).contains s.current_iteration = false)
    (hk : latestPriorKey (s.outputsOf a) s.current_iteration = some k)
    (hprev : (s.outputsOf a).lookup k = some prev) :
    (should_update_last_iteration a
      (s.setOutputsOf a ((s.outputsOf a).insert s.current_iteration
        { out with iteration := s.current_iteration }))
      { out with iteration := s.current_iteration } = decide (out.core ≠ prev.core)) ∧
    (out.core ≠ prev.core →
      (process a (.ok (some out)) s).last_update_iteration.lookup (WorkerName.toString a)
        = some (s.current_iteration : Int)) ∧
    (out.core = prev.core →
      (process a (.ok (some out)) s).last_update_iteration = s.last_update_iteration) := by
  have hsu := should_update_after_commit a s { out with iteration := s.current_iteration }
    k prev hguard hk hprev
  refine ⟨hsu, fun hne => ?_, fun heq => ?_⟩
  · rw [process_commits a out s t htask ht hdep hguard]
    exact commit_lookup_update a out s (hsu.trans (decide_eq_true hne))
  · rw [process_commits a out s t htask ht hdep hguard]
    exact commit_lookup_maintain a out s (hsu.trans (decide_eq_false (not_not_intro heq)))

/-- State for the C4 witness: like `sC2` but aerodynamics already has a
committed output at iteration 0. -/
def sC4 : GlobalState := { sC2 with aerodynamics_outputs := ⟨[(0, sampleAeroOutput)]⟩ }

/-- C4 witness: at iteration 1, a new aerodynamics output with different core
fields is an UPDATE (`last_update_iteration["aerodynamics"] = 1`), while one
differing only in `messages` is a MAINTAIN (row left unchanged). -/
theorem claim_C4_witness :
    (process .aerodynamics (.ok (some aeroNew)) sC4).last_update_iteration.lookup
      "aerodynamics" = some (1 : Int) ∧
    (process .aerodynamics (.ok (some aeroSameCore)) sC4).last_update_iteration
      = sC4.last_update_iteration := by
  refine ⟨(claim_C4_update_classification .aerodynamics sC4 aeroNew sampleAeroOutput
      "Design wings" 0 (by decide) (by decide) (by decide) (by decide) (by decide)
      (by decide)).2.1 (by decide),
    (claim_C4_update_classification .aerodynamics sC4 aeroSameCore sampleAeroOutput
      "Design wings" 0 (by decide) (by decide) (by decide) (by decide) (by decide)
      (by decide)).2.2 (by decide)⟩

/-- C10: a worker's first-ever commit is always classified as an UPDATE —
whenever the agent has no output key strictly below the current iteration
(in particular when its output history is empty), the classification returns
true, and on the commit path `process` sets `last_update_iteration[agent]`
to the committing iteration even though there is no prior output to compare
against. -/
theorem claim_C10_first_update (a : WorkerName) (s : GlobalState) (out : WorkerOutput)
    (t : String)
    (hfilter : (s.outputsOf a).keys.filter (fun k => k < s.current_iteration) = []) :
    should_update_last_iteration a s out = true ∧
    (get_task_for_current_iteration a s = some t → t ≠ "" →
      check_dependencies_ready a s = true →
      (s.outputsOf a).contains s.current_iteration = false →
      (process a (.ok (some out)) s).last_update_iteration.lookup (WorkerName.toString a)
        = some (s.current_iteration : Int)) := by
  have hlp : latestPriorKey (s.outputsOf a) s.current_iteration = none := by
    unfold latestPriorKey
    rw [hfilter]
    simp
  constructor
  · unfold should_update_last_iteration
    dsimp only
    rw [hlp]
    split
    · rfl
    · rfl
  · intro htask ht hdep hguard
    rw [process_commits a out s t htask ht hdep hguard]
    exact commit_lookup_update a out s
      (should_update_after_commit_none a s { out with iteration := s.current_iteration }
        hguard hlp)

/-- C10 witness: aerodynamics' first commit (empty history) at iteration 1
sets `last_update_iteration["aerodynamics"] = 1`. -/
theorem claim_C10_witness :
    should_update_last_iteration .aerodynamics sC2 aeroNew = true ∧
    (process .aerodynamics (.ok (some aeroNew)) sC2).last_update_iteration.lookup
      "aerodynamics" = some (1 : Int) := by
  refine ⟨(claim_C10_first_update .aerodynamics sC2 aeroNew "Design wings" (by decide)).1,
    (claim_C10_first_update .aerodynamics sC2 aeroNew "Design wings" (by decide)).2
      (by decide) (by decide) (by decide) (by decide)⟩

/-- C6: coordinator snooze.  In a steady-state round (iteration > 0) where
the stability check holds and the evaluation decides to continue, the
coordinator records `last_update_iteration["coordinator"] = current_iteration`
and advances to the next iteration; any later state carrying that row within
the next `stability_threshold - 1` iterations fails the stability check, and
while the stability check fails the coordinator round is independent of the
LLM evaluation (completion is not re-evaluated). -/
theorem claim_C6_snooze (llmOut : CoordinatorOutput) (s : GlobalState)
    (h0 : s.current_iteration ≠ 0) (hst : check_stability s = true)
    (hpc : llmOut.project_complete = false) :
    (coordinator_process llmOut s).last_update_iteration.lookup "coordinator"
        = some (s.current_iteration : Int) ∧
    (coordinator_process llmOut s).current_iteration = s.current_iteration + 1 ∧
    (∀ s'' : GlobalState, s''.stability_threshold = s.stability_threshold →
        s''.last_update_iteration.lookup "coordinator" = some (s.current_iteration : Int) →
        s''.current_iteration < s.current_iteration + s.stability_threshold →
        check_stability s'' = false) ∧
    (∀ s'' : GlobalState, s''.current_iteration ≠ 0 → check_stability s'' = false →
        ∀ o₁ o₂ : CoordinatorOutput, coordinator_process o₁ s'' = coordinator_process o₂ s'') := by
  have hred : coordinator_process llmOut s = coordinator_finish s.current_iteration llmOut
      { s with last_update_iteration :=
          s.last_update_iteration.insert "coordinator" (s.current_iteration : Int) } := by
    unfold coordinator_process
    simp [h0, hst, hpc]
  obtain ⟨p1, p2, p3, p4, p5, p6, p7, p8, p9⟩ :=
    coordinator_finish_props s.current_iteration llmOut
      { s with last_update_iteration :=
          s.last_update_iteration.insert "coordinator" (s.current_iteration : Int) }
  refine ⟨?_, ?_, ?_, ?_⟩
  · rw [hred, p9]
    rw [show ({ s with last_update_iteration :=
        s.last_update_iteration.insert "coordinator" (s.current_iteration : Int) }
        : GlobalState).last_update_iteration
        = s.last_update_iteration.insert "coordinator" (s.current_iteration : Int) from rfl]
    rw [Dict.lookup_insert, if_pos rfl]
  · rw [hred, p6 hpc]
  · intro s'' hth hlk hcur
    unfold check_stability
    split
    · rfl
    · rename_i hge
      have hmem := Dict.lookup_mem _ _ _ hlk
      cases hall : s''.last_update_iteration.entries.all (fun p =>
          !decide ((s''.current_iteration : Int) - p.2 < (s''.stability_threshold : Int))) with
      | false => rfl
      | true =>
          exfalso
          have hp := List.all_eq_true.mp hall _ hmem
          rw [hth] at hp
          simp only [Bool.not_eq_true', decide_eq_false_iff_not, not_lt] at hp
          omega
  · intro s'' h0'' hst'' o₁ o₂
    unfold coordinator_process
    simp [h0'', hst'']

/-- Stable state for the C6 witness: threshold 3, iteration 5, every worker's
last update at iteration ≤ 2. -/
def sC6 : GlobalState :=
  { baseState with
    current_iteration := 5
    last_update_iteration := ⟨[("mission_planner", 1), ("aerodynamics", 2),
      ("propulsion", 1), ("structures", 2), ("manufacturing", 2)]⟩ }

def coContinue : CoordinatorOutput :=
  { project_complete := false
    completion_reason := "refine costs"
    agent_tasks := []
    messages := []
    iteration := 5 }

/-- C6 witness: at the stable iteration-5 state, continuing despite stability
records the coordinator snooze row and advances to iteration 6. -/
theorem claim_C6_witness :
    (coordinator_process coContinue sC6).last_update_iteration.lookup "coordinator"
      = some (5 : Int) ∧
    (coordinator_process coContinue sC6).current_iteration = 6 := by
  refine ⟨(claim_C6_snooze coContinue sC6 (by decide) (by decide) (by decide)).1,
    (claim_C6_snooze coContinue sC6 (by decide) (by decide) (by decide)).2.1⟩

end UAVDesign
